import Mathlib

/-!
Shallow embedding of the Graviton game core (models.py, game_board.py,
pathfinding.py, fuzzy_logic.py, minimax_ai.py).

Modelling conventions:
- Python ints are `ℤ` (ship counts) or `ℕ` (coordinates, turn counter, which
  are only ever non-negative in the source).
- Python floats in the fuzzy logic are modelled as exact fractions
  (`PyFloat`, an integer numerator over a positive integer denominator,
  compared by cross-multiplication; the `ℚ` valuation `PyFloat.toQ` is used
  in specification statements).  The float values `float('inf')` /
  `float('-inf')` used as alpha/beta bounds are modelled by the three-valued
  type `XQ` below.
- A* path costs are sums of `1` (orthogonal step) and `sqrt 2` (diagonal
  step); they are represented exactly as pairs `(a, b) : ℕ × ℕ` standing for
  `a + b * sqrt 2`, with the comparison used by the priority queue decided by
  integer arithmetic.  This coincides with the float comparison of the source
  on all inputs whose exact values are not equal (by irrationality of
  `sqrt 2` an exact tie forces equal pairs).
- Planets are mutable Python objects stored both in `board.grid` (row-major)
  and in `board.planets` (appended row-major); the two views always hold the
  same objects in the same layout, so a board is modelled as a single
  row-major list `planets`, and planet objects are referred to by their index
  in that list.  `grid[y][x]` is index `y*4 + x`.
- Python's `heapq` pops the least `(f_score, counter, ...)` tuple; counters
  are unique and assigned in push order, and the open set list below keeps
  entries in push order, so popping the first entry with minimal `f` is
  observationally the same and the counter field is dropped.
-/

/-- Owners: the Python strings 'player' and 'ai' ('player' is side A). -/
inductive Side : Type
  | player : Side
  | ai : Side
deriving DecidableEq, Repr

/-- Values of `board.winner` other than `None`: 'player', 'ai' or 'tie'. -/
inductive Outcome : Type
  | player : Outcome
  | ai : Outcome
  | tie : Outcome
deriving DecidableEq, Repr

/-- The swap `'ai' if current_player == 'player' else 'player'`. -/
def otherSide : Side → Side
  | Side.player => Side.ai
  | Side.ai => Side.player

/-- models.py `Planet`: grid position, size, owner, ships, capacity. -/
structure Planet : Type where
  x : ℕ
  y : ℕ
  size : ℕ
  owner : Option Side
  ships : ℤ
  max_ships : ℤ
deriving DecidableEq, Repr

instance : Inhabited Planet := ⟨⟨0, 0, 0, none, 0, 0⟩⟩

/-- The `Planet.__init__` constructor: `ships = 0`, `max_ships = size * 3`. -/
def Planet.init (x y size : ℕ) (owner : Option Side) : Planet :=
  { x := x, y := y, size := size, owner := owner, ships := 0,
    max_ships := (size : ℤ) * 3 }

/-- Python `max(a, b)`: the first argument when `a >= b`.  (The lattice
`max` on `ℤ`/`ℚ` does not reduce in the kernel, so the embedded code uses
this executable version; `pymax_eq_max` below identifies the two.) -/
def pymax [LE α] [DecidableRel ((· ≤ ·) : α → α → Prop)] (a b : α) : α :=
  if b ≤ a then a else b

/-- Python `min(a, b)`: the first argument when `a <= b`. -/
def pymin [LE α] [DecidableRel ((· ≤ ·) : α → α → Prop)] (a b : α) : α :=
  if a ≤ b then a else b

/-- `Planet.add_ships`: `ships = min(ships + count, max_ships)`. -/
def Planet.add_ships (p : Planet) (count : ℤ) : Planet :=
  { p with ships := pymin (p.ships + count) p.max_ships }

/-- `Planet.remove_ships`: `ships = max(0, ships - count)`. -/
def Planet.remove_ships (p : Planet) (count : ℤ) : Planet :=
  { p with ships := pymax 0 (p.ships - count) }

/-- `Planet.generate_ships`: add 1 ship if the owner is 'player' or 'ai'. -/
def Planet.generate_ships (p : Planet) : Planet :=
  match p.owner with
  | some _ => p.add_ships 1
  | none => p

/-- `Planet.get_position`: the `(x, y)` tuple. -/
def Planet.get_position (p : Planet) : ℕ × ℕ := (p.x, p.y)

/-- constants.py `BOARD_SIZE`. -/
def BOARD_SIZE : ℕ := 4

/-- constants.py `MAX_TURNS`. -/
def MAX_TURNS : ℕ := 30

/-- constants.py `WIN_CONDITION_PLANETS`. -/
def WIN_CONDITION_PLANETS : ℕ := 12

/-- game_board.py `GameBoard` state: the row-major planet list plus the
scalar fields.  `selected_planet` is the index of the selected planet. -/
structure Board : Type where
  planets : List Planet
  turn : ℕ
  current_player : Side
  selected_planet : Option ℕ
  game_over : Bool
  winner : Option Outcome
deriving DecidableEq, Repr

/-- `GameBoard.initialize_board`, with the stream of `random.randint(1,3)`
draws supplied as the row-major size assignment `sizes`.  Index 0 is
`grid[0][0]` (player, 10 ships), index 1 is `grid[0][1]` (player, 8),
index 15 is `grid[3][3]` (ai, 10), index 14 is `grid[3][2]` (ai, 8). -/
def initialize_board (sizes : ℕ → ℕ) : Board :=
  { planets := (List.range 16).map (fun i =>
      let p := Planet.init (i % 4) (i / 4) (sizes i) none
      if i = 0 then { p with owner := some Side.player, ships := 10 }
      else if i = 1 then { p with owner := some Side.player, ships := 8 }
      else if i = 15 then { p with owner := some Side.ai, ships := 10 }
      else if i = 14 then { p with owner := some Side.ai, ships := 8 }
      else p),
    turn := 0,
    current_player := Side.player,
    selected_planet := none,
    game_over := false,
    winner := none }

/-- `GameBoard.get_player_planets`: all planets with the given owner. -/
def get_player_planets (b : Board) (owner : Side) : List Planet :=
  b.planets.filter (fun p => p.owner = some owner)

/-- Number of planets owned by a side (`len(get_player_planets(owner))`). -/
def countPlanets (b : Board) (owner : Side) : ℕ :=
  (get_player_planets b owner).length

/-- `GameBoard.generate_all_ships`: one ship per owned planet. -/
def generate_all_ships (b : Board) : Board :=
  { b with planets := b.planets.map Planet.generate_ships }

/-- The `attack_info` dict returned by a successful `GameBoard.attack`. -/
structure AttackInfo : Type where
  source : ℕ × ℕ
  target : ℕ × ℕ
  attacker : Option Side
deriving DecidableEq, Repr

/-- `GameBoard.attack`, with the source and target planet objects given by
their indices `si`, `ti` in the planet list.  Returns `none` for the Python
`False` (invalid move) and otherwise the `attack_info` dict, paired with the
updated board.  The target's fields are re-read after the source mutation so
that the aliased call `attack(p, p, c)` behaves exactly as in Python. -/
def Board.attack (b : Board) (si ti : ℕ) (ship_count : ℤ) :
    Option AttackInfo × Board :=
  let source := b.planets.getD si default
  if source.owner ≠ some b.current_player then (none, b)
  else if source.ships ≤ ship_count then (none, b)
  else if ship_count < 1 then (none, b)
  else
    let planets1 := b.planets.set si (source.remove_ships ship_count)
    let target := planets1.getD ti default
    let info : AttackInfo :=
      { source := source.get_position, target := target.get_position,
        attacker := source.owner }
    if target.owner = source.owner then
      (some info, { b with planets := planets1.set ti (target.add_ships ship_count) })
    else if target.ships < ship_count then
      let captured : Planet :=
        { target with owner := source.owner, ships := ship_count - target.ships }
      (some info, { b with planets := planets1.set ti captured })
    else
      (some info, { b with planets := planets1.set ti (target.remove_ships ship_count) })

/-- `GameBoard.check_game_over`: victory conditions in source order. -/
def check_game_over (b : Board) : Board :=
  let player_planets := countPlanets b Side.player
  let ai_planets := countPlanets b Side.ai
  if player_planets = 0 then
    { b with game_over := true, winner := some Outcome.ai }
  else if ai_planets = 0 then
    { b with game_over := true, winner := some Outcome.player }
  else if WIN_CONDITION_PLANETS ≤ player_planets then
    { b with game_over := true, winner := some Outcome.player }
  else if WIN_CONDITION_PLANETS ≤ ai_planets then
    { b with game_over := true, winner := some Outcome.ai }
  else if MAX_TURNS ≤ b.turn then
    let w : Option Outcome :=
      if ai_planets < player_planets then some Outcome.player
      else if player_planets < ai_planets then some Outcome.ai
      else some Outcome.tie
    { b with game_over := true, winner := w }
  else b

/-- `GameBoard.end_turn`: generate ships, advance the turn, swap the side,
clear the selection, then check the victory conditions. -/
def end_turn (b : Board) : Board :=
  let b1 := generate_all_ships b
  check_game_over
    { b1 with
      turn := b1.turn + 1
      current_player := otherSide b1.current_player
      selected_planet := none }

/-- An exact A* cost `(a, b)`, standing for the float `a + b * sqrt(2)`
(`a` orthogonal steps of cost 1, `b` diagonal steps of cost `sqrt(2)`). -/
def Cost : Type := ℕ × ℕ

instance : DecidableEq Cost := instDecidableEqProd

/-- The real value of a cost pair. -/
noncomputable def costVal (c : Cost) : ℝ := (c.1 : ℝ) + (c.2 : ℝ) * Real.sqrt 2

/-- Cost addition (float addition of the corresponding sums). -/
def costAdd (c d : Cost) : Cost := (c.1 + d.1, c.2 + d.2)

/-- Decides `p ≤ q * sqrt 2` for integers by squaring. -/
def sqrtTwoLE (p q : ℤ) : Bool :=
  if 0 ≤ q then decide (p ≤ 0) || decide (p ^ 2 ≤ 2 * q ^ 2)
  else decide (p < 0) && decide (2 * q ^ 2 ≤ p ^ 2)

/-- Decides `a + b*sqrt 2 ≤ c + d*sqrt 2`: the comparison the priority queue
performs on f-scores (the source compares the float values). -/
def costLE (x y : Cost) : Bool :=
  sqrtTwoLE ((x.1 : ℤ) - (y.1 : ℤ)) ((y.2 : ℤ) - (x.2 : ℤ))

/-- `AStarPathfinder.heuristic`: Manhattan distance. -/
def heuristic (pos1 pos2 : ℕ × ℕ) : ℕ :=
  ((pos1.1 : ℤ) - (pos2.1 : ℤ)).natAbs + ((pos1.2 : ℤ) - (pos2.2 : ℤ)).natAbs

/-- Chebyshev distance between two cells (used in the corrected statement of
the heuristic bound; not part of the source). -/
def cheb (pos1 pos2 : ℕ × ℕ) : ℕ :=
  max ((pos1.1 : ℤ) - (pos2.1 : ℤ)).natAbs ((pos1.2 : ℤ) - (pos2.2 : ℤ)).natAbs

/-- The `(dx, dy)` enumeration order of `AStarPathfinder.get_neighbors`. -/
def neighborOffsets : List (ℤ × ℤ) :=
  [(-1, -1), (-1, 0), (-1, 1), (0, -1), (0, 1), (1, -1), (1, 0), (1, 1)]

/-- `AStarPathfinder.get_neighbors`: in-bounds 8-directional neighbors. -/
def get_neighbors (pos : ℕ × ℕ) : List (ℕ × ℕ) :=
  neighborOffsets.filterMap (fun d =>
    let nx : ℤ := (pos.1 : ℤ) + d.1
    let ny : ℤ := (pos.2 : ℤ) + d.2
    if 0 ≤ nx ∧ nx < 4 ∧ 0 ≤ ny ∧ ny < 4 then some (nx.toNat, ny.toNat)
    else none)

/-- `AStarPathfinder.euclidean_distance` restricted to the adjacent pairs it
is applied to: cost 1 for an orthogonal step, `sqrt 2` for a diagonal one. -/
def move_cost (pos1 pos2 : ℕ × ℕ) : Cost :=
  if pos1.1 = pos2.1 ∨ pos1.2 = pos2.2 then (1, 0) else (0, 1)

/-- One entry of the A* priority queue: `(f_score, position, g_score, path)`
(the tie-breaking counter is implicit in the list order, see the header). -/
structure PQEntry : Type where
  f : Cost
  pos : ℕ × ℕ
  g : Cost
  path : List (ℕ × ℕ)
deriving DecidableEq

/-- `heapq.heappop`: remove the first entry with the least f-score (entries
are kept in push order, so "first least" is the least `(f, counter)`). -/
def popMin : List PQEntry → Option (PQEntry × List PQEntry)
  | [] => none
  | e :: rest =>
    match popMin rest with
    | none => some (e, [])
    | some (m, rest2) =>
      if costLE e.f m.f then some (e, rest) else some (m, e :: rest2)

/-- The body of the `while open_set:` loop of `AStarPathfinder.find_path`,
with explicit fuel (the loop always terminates: at most 16 positions are
ever closed and each closing pushes at most 8 entries, so at most 129
entries are ever popped; the fuel passed below exceeds that).  The result
is `(path, cost)` with `cost = none` for the float `inf` of the source. -/
def find_path_loop (end_pos : ℕ × ℕ) :
    ℕ → List PQEntry → List (ℕ × ℕ) → Option (List (ℕ × ℕ) × Option Cost)
  | 0, _, _ => none
  | fuel + 1, open_set, closed_set =>
    match popMin open_set with
    | none => some ([], none)
    | some (e, rest) =>
      if e.pos ∈ closed_set then find_path_loop end_pos fuel rest closed_set
      else if e.pos = end_pos then some (e.path, some e.g)
      else
        let closed2 := e.pos :: closed_set
        let pushed := (get_neighbors e.pos).foldl (fun acc n =>
          if n ∈ closed2 then acc
          else
            let new_g := costAdd e.g (move_cost e.pos n)
            let new_f := costAdd new_g (heuristic n end_pos, 0)
            acc ++ [{ f := new_f, pos := n, g := new_g, path := e.path ++ [n] }]) rest
        find_path_loop end_pos fuel pushed closed2

/-- `AStarPathfinder.find_path`. -/
def find_path (start_pos end_pos : ℕ × ℕ) :
    Option (List (ℕ × ℕ) × Option Cost) :=
  if start_pos = end_pos then some ([start_pos], some (0, 0))
  else
    find_path_loop end_pos 1000
      [{ f := (heuristic start_pos end_pos, 0), pos := start_pos,
         g := (0, 0), path := [start_pos] }] []

/-- `AStarPathfinder.get_distance` between the planets at indices `i`, `j`
(`none` is the float `inf` of an empty search; it never occurs on the full
grid, and fuel exhaustion is folded into the same value). -/
def get_distance (b : Board) (i j : ℕ) : Option Cost :=
  let p1 := b.planets.getD i default
  let p2 := b.planets.getD j default
  match find_path p1.get_position p2.get_position with
  | some (_, c) => c
  | none => none

/-- Comparison of two distances as floats, `none` being `inf`. -/
def distLE : Option Cost → Option Cost → Bool
  | none, none => true
  | none, some _ => false
  | some _, none => true
  | some c, some d => costLE c d

/-- Stable insertion of `x` (originally earlier than all of `l`) into the
sorted list `l`: `x` goes before the first element not `le`-below it. -/
def insSorted (le : α → α → Bool) (x : α) : List α → List α
  | [] => [x]
  | y :: ys => if le x y then x :: y :: ys else y :: insSorted le x ys

/-- Stable sort (the semantics of Python's `list.sort(key=...)`). -/
def stableSort (le : α → α → Bool) : List α → List α
  | [] => []
  | x :: xs => insSorted le x (stableSort le xs)

/-- `AStarPathfinder.find_closest_planets` with planets as indices: A*
distances to every target other than the source, sorted ascending (stable,
so ties keep input order, as in Python), truncated to `max_count`. -/
def find_closest_planets (b : Board) (si : ℕ) (targets : List ℕ)
    (max_count : ℕ) : List (ℕ × Option Cost) :=
  let distances := (targets.filter (fun t => t ≠ si)).map
    (fun t => (t, get_distance b si t))
  (stableSort (fun x y => distLE x.2 y.2) distances).take max_count

/-- An exact Python float value, kept as an unnormalized fraction
`num / den`.  Every value built by the embedded code has `den > 0`.
(Lean's `ℚ` normalizes through `Nat.gcd`, which the kernel cannot reduce,
so the executable embedding carries raw fractions and `toQ` gives their
mathematical value.) -/
structure PyFloat : Type where
  num : ℤ
  den : ℤ
deriving DecidableEq, Repr

/-- The rational value of a `PyFloat`. -/
def PyFloat.toQ (x : PyFloat) : ℚ := (x.num : ℚ) / (x.den : ℚ)

/-- An integer as a float. -/
def PyFloat.ofInt (n : ℤ) : PyFloat := ⟨n, 1⟩

/-- Float addition. -/
def PyFloat.add (x y : PyFloat) : PyFloat :=
  ⟨x.num * y.den + y.num * x.den, x.den * y.den⟩

/-- Float subtraction. -/
def PyFloat.sub (x y : PyFloat) : PyFloat :=
  ⟨x.num * y.den - y.num * x.den, x.den * y.den⟩

/-- Float multiplication. -/
def PyFloat.mul (x y : PyFloat) : PyFloat := ⟨x.num * y.num, x.den * y.den⟩

/-- Float division (sign moved to the numerator to keep `den` positive). -/
def PyFloat.div (x y : PyFloat) : PyFloat :=
  if 0 ≤ y.num then ⟨x.num * y.den, x.den * y.num⟩
  else ⟨-(x.num * y.den), x.den * (-y.num)⟩

/-- Float `<=` by cross-multiplication (valid for positive denominators). -/
def PyFloat.le (x y : PyFloat) : Bool := decide (x.num * y.den ≤ y.num * x.den)

/-- Float `<`. -/
def PyFloat.lt (x y : PyFloat) : Bool := !(PyFloat.le y x)

/-- Float `== 0` (valid for a nonzero denominator). -/
def PyFloat.eq0 (x : PyFloat) : Bool := decide (x.num = 0)

/-- Python `max` on floats: the first argument when `a >= b`. -/
def PyFloat.max2 (a b : PyFloat) : PyFloat := if PyFloat.le b a then a else b

/-- Python `min` on floats: the first argument when `a <= b`. -/
def PyFloat.min2 (a b : PyFloat) : PyFloat := if PyFloat.le a b then a else b

/-- fuzzy_logic.py `planet_strength_weak`. -/
def planet_strength_weak (ship_ratio : PyFloat) : PyFloat :=
  if ship_ratio.le ⟨3, 10⟩ then PyFloat.ofInt 1
  else if ship_ratio.le ⟨3, 5⟩ then (PyFloat.sub ⟨3, 5⟩ ship_ratio).div ⟨3, 10⟩
  else PyFloat.ofInt 0

/-- fuzzy_logic.py `planet_strength_medium`. -/
def planet_strength_medium (ship_ratio : PyFloat) : PyFloat :=
  if ship_ratio.le ⟨3, 10⟩ then PyFloat.ofInt 0
  else if ship_ratio.le ⟨3, 5⟩ then (PyFloat.sub ship_ratio ⟨3, 10⟩).div ⟨3, 10⟩
  else if ship_ratio.le ⟨9, 10⟩ then (PyFloat.sub ⟨9, 10⟩ ship_ratio).div ⟨3, 10⟩
  else PyFloat.ofInt 0

/-- fuzzy_logic.py `planet_strength_strong`. -/
def planet_strength_strong (ship_ratio : PyFloat) : PyFloat :=
  if ship_ratio.le ⟨3, 5⟩ then PyFloat.ofInt 0
  else if ship_ratio.le ⟨9, 10⟩ then (PyFloat.sub ship_ratio ⟨3, 5⟩).div ⟨3, 10⟩
  else PyFloat.ofInt 1

/-- fuzzy_logic.py `strategic_value_low`. -/
def strategic_value_low (value : PyFloat) : PyFloat :=
  if value.le (PyFloat.ofInt 2) then PyFloat.ofInt 1
  else if value.le (PyFloat.ofInt 4) then
    (PyFloat.sub (PyFloat.ofInt 4) value).div (PyFloat.ofInt 2)
  else PyFloat.ofInt 0

/-- fuzzy_logic.py `strategic_value_medium`. -/
def strategic_value_medium (value : PyFloat) : PyFloat :=
  if value.le (PyFloat.ofInt 2) then PyFloat.ofInt 0
  else if value.le (PyFloat.ofInt 4) then
    (PyFloat.sub value (PyFloat.ofInt 2)).div (PyFloat.ofInt 2)
  else if value.le (PyFloat.ofInt 6) then
    (PyFloat.sub (PyFloat.ofInt 6) value).div (PyFloat.ofInt 2)
  else PyFloat.ofInt 0

/-- fuzzy_logic.py `strategic_value_high`. -/
def strategic_value_high (value : PyFloat) : PyFloat :=
  if value.le (PyFloat.ofInt 4) then PyFloat.ofInt 0
  else if value.le (PyFloat.ofInt 6) then
    (PyFloat.sub value (PyFloat.ofInt 4)).div (PyFloat.ofInt 2)
  else PyFloat.ofInt 1

/-- fuzzy_logic.py `game_phase_early`. -/
def game_phase_early (turn : PyFloat) : PyFloat :=
  if turn.le (PyFloat.ofInt 10) then PyFloat.ofInt 1
  else if turn.le (PyFloat.ofInt 20) then
    (PyFloat.sub (PyFloat.ofInt 20) turn).div (PyFloat.ofInt 10)
  else PyFloat.ofInt 0

/-- fuzzy_logic.py `game_phase_mid`. -/
def game_phase_mid (turn : PyFloat) : PyFloat :=
  if turn.le (PyFloat.ofInt 10) then PyFloat.ofInt 0
  else if turn.le (PyFloat.ofInt 20) then
    (PyFloat.sub turn (PyFloat.ofInt 10)).div (PyFloat.ofInt 10)
  else if turn.le (PyFloat.ofInt 35) then
    (PyFloat.sub (PyFloat.ofInt 35) turn).div (PyFloat.ofInt 15)
  else PyFloat.ofInt 0

/-- fuzzy_logic.py `game_phase_late`. -/
def game_phase_late (turn : PyFloat) : PyFloat :=
  if turn.le (PyFloat.ofInt 20) then PyFloat.ofInt 0
  else if turn.le (PyFloat.ofInt 35) then
    (PyFloat.sub turn (PyFloat.ofInt 20)).div (PyFloat.ofInt 15)
  else PyFloat.ofInt 1

/-- fuzzy_logic.py `defuzzify`: centroid over the centers 0.25 / 0.5 / 0.85,
with the neutral default 0.5 when all activations vanish. -/
def defuzzify (low_activation medium_activation high_activation : PyFloat) :
    PyFloat :=
  let numerator := (low_activation.mul ⟨1, 4⟩).add
    ((medium_activation.mul ⟨1, 2⟩).add (high_activation.mul ⟨17, 20⟩))
  let denominator := (low_activation.add medium_activation).add high_activation
  if denominator.eq0 then ⟨1, 2⟩
  else numerator.div denominator

/-- fuzzy_logic.py `calculate_strategic_value`. -/
def calculate_strategic_value (planet : Planet) : PyFloat :=
  let value := PyFloat.ofInt planet.size
  let x := planet.x
  let y := planet.y
  let value :=
    if (x, y) ∈ [(1, 1), (1, 2), (2, 1), (2, 2)] then value.add (PyFloat.ofInt 2)
    else if 0 < x ∧ x < 3 ∧ 0 < y ∧ y < 3 then value.add (PyFloat.ofInt 1)
    else value
  if x = 0 ∨ x = 3 ∨ y = 0 ∨ y = 3 then
    PyFloat.max2 (PyFloat.ofInt 1) (value.sub ⟨1, 2⟩)
  else value

/-- fuzzy_logic.py `evaluate_attack`.  `boardTurn` is `self.board.turn` of
the `FuzzyLogic` instance (the board the evaluator was constructed on). -/
def evaluate_attack (boardTurn : ℕ) (source target : Planet) : PyFloat :=
  let ship_ratio : PyFloat :=
    if source.ships = 0 then PyFloat.ofInt 1
    else (PyFloat.ofInt target.ships).div (PyFloat.ofInt source.ships)
  let strategic_value := calculate_strategic_value target
  let current_turn : PyFloat := PyFloat.ofInt (boardTurn / 2 + 1 : ℕ)
  let weak := planet_strength_weak ship_ratio
  let medium_strength := planet_strength_medium ship_ratio
  let strong := planet_strength_strong ship_ratio
  let low_value := strategic_value_low strategic_value
  let medium_value := strategic_value_medium strategic_value
  let high_value := strategic_value_high strategic_value
  let early := game_phase_early current_turn
  let mid := game_phase_mid current_turn
  let late := game_phase_late current_turn
  let low_agg := PyFloat.max2 (PyFloat.ofInt 0) strong
  let high_agg := PyFloat.max2 (PyFloat.ofInt 0) (PyFloat.min2 weak high_value)
  let medium_agg := PyFloat.max2 (PyFloat.ofInt 0) (PyFloat.min2 weak low_value)
  let medium_agg := PyFloat.max2 medium_agg (PyFloat.min2 medium_strength high_value)
  let low_agg := PyFloat.max2 low_agg (PyFloat.min2 medium_strength low_value)
  let high_agg := PyFloat.max2 high_agg (PyFloat.min2 early weak)
  let high_agg := PyFloat.max2 high_agg (PyFloat.min2 late (PyFloat.min2 weak high_value))
  let low_agg := PyFloat.max2 low_agg (PyFloat.min2 late strong)
  let medium_agg := PyFloat.max2 medium_agg (PyFloat.min2 mid medium_value)
  defuzzify low_agg medium_agg high_agg

/-- Python `int()` applied to a float: truncation toward zero (valid for
the positive denominators the embedded code produces: `Int.ediv` by a
positive integer rounds toward minus infinity, so this is the floor for a
non-negative value and minus the floor of the negation otherwise). -/
def pyTrunc (x : PyFloat) : ℤ :=
  if 0 ≤ x.num then x.num.ediv x.den else -((-x.num).ediv x.den)

/-- fuzzy_logic.py `get_ship_count_recommendation`.  `none` in the low-
aggressiveness branch models the early `return 0` that skips the final
clamp. -/
def get_ship_count_recommendation (source target : Planet) (owner : Side)
    (aggressiveness : PyFloat) : ℤ :=
  let available_ships := source.ships - 1
  if available_ships ≤ 0 then 0
  else
    let base? : Option ℤ :=
      if target.owner = some owner then
        some (pyTrunc ((PyFloat.ofInt available_ships).mul aggressiveness))
      else
        let needed_to_capture := target.ships + 1
        if PyFloat.le ⟨7, 10⟩ aggressiveness then
          some (pymin available_ships
            (pyTrunc ((PyFloat.ofInt needed_to_capture).mul ⟨3, 2⟩)))
        else if PyFloat.le ⟨2, 5⟩ aggressiveness then
          some (pymin available_ships
            (pyTrunc ((PyFloat.ofInt needed_to_capture).mul ⟨6, 5⟩)))
        else if needed_to_capture < available_ships then
          some needed_to_capture
        else none
    match base? with
    | none => 0
    | some base_ships => pymax 1 (pymin base_ships available_ships)

/-- A Python float that is either finite or one of `float('-inf')` /
`float('inf')`: the score/alpha/beta values of the minimax search. -/
inductive XQ : Type
  | ninf : XQ
  | fin (q : PyFloat) : XQ
  | pinf : XQ
deriving DecidableEq, Repr

/-- Float `<=` on scores and bounds. -/
def XQ.le : XQ → XQ → Bool
  | XQ.ninf, _ => true
  | _, XQ.pinf => true
  | XQ.fin a, XQ.fin b => PyFloat.le a b
  | XQ.pinf, _ => false
  | XQ.fin _, XQ.ninf => false

/-- Float `<` (no NaNs occur): `a < b` iff not `b <= a`. -/
def XQ.lt (a b : XQ) : Bool := !(XQ.le b a)

/-- Python `max(a, b)`: `a` if `a >= b` (ties keep the first argument). -/
def XQ.max2 (a b : XQ) : XQ := if XQ.le b a then a else b

/-- Python `min(a, b)`: `a` if `a <= b` (ties keep the first argument). -/
def XQ.min2 (a b : XQ) : XQ := if XQ.le a b then a else b

/-- Adding a finite float to a possibly infinite one (`-inf + q = -inf`). -/
def XQ.addF : XQ → PyFloat → XQ
  | XQ.ninf, _ => XQ.ninf
  | XQ.pinf, _ => XQ.pinf
  | XQ.fin a, q => XQ.fin (a.add q)

/-- `MinimaxAI.evaluate_board` from the perspective of `owner` (an integer
score in the source). -/
def evaluate_board (owner : Side) (b : Board) : ℤ :=
  let opponent := otherSide owner
  let owner_planets := get_player_planets b owner
  let opponent_planets := get_player_planets b opponent
  if owner_planets.length = 0 then -10000
  else if opponent_planets.length = 0 then 10000
  else if 12 ≤ owner_planets.length then 10000
  else if 12 ≤ opponent_planets.length then -10000
  else
    let center_positions : List (ℕ × ℕ) := [(1, 1), (1, 2), (2, 1), (2, 2)]
    let owner_ships := (owner_planets.map Planet.ships).sum
    let opponent_ships := (opponent_planets.map Planet.ships).sum
    let owner_production := (owner_planets.map Planet.size).sum
    let opponent_production := (opponent_planets.map Planet.size).sum
    let owner_center :=
      (owner_planets.filter (fun p => p.get_position ∈ center_positions)).length
    let opponent_center :=
      (opponent_planets.filter (fun p => p.get_position ∈ center_positions)).length
    let neutral_count := (b.planets.filter (fun p => p.owner = none)).length
    ((owner_planets.length : ℤ) - (opponent_planets.length : ℤ)) * 100 +
      (owner_ships - opponent_ships) * 10 +
      ((owner_production : ℤ) - (opponent_production : ℤ)) * 50 +
      ((owner_center : ℤ) - (opponent_center : ℤ)) * 30 +
      (neutral_count : ℤ) * 5

/-- `MinimaxAI.copy_board`: a fresh board with freshly constructed planets
carrying the old size/owner/ships/max_ships; `selected_planet`, `game_over`
and `winner` are (re)set to their `GameBoard.__new__` defaults, not copied. -/
def copy_board (b : Board) : Board :=
  { planets := (List.range 16).map (fun i =>
      let old := b.planets.getD i default
      { x := i % 4, y := i / 4, size := old.size, owner := old.owner,
        ships := old.ships, max_ships := old.max_ships }),
    turn := b.turn,
    current_player := b.current_player,
    selected_planet := none,
    game_over := false,
    winner := none }

/-- `MinimaxAI.simulate_move` with the source/target planet objects given as
indices into `b.planets`; the corresponding planets of the copy are found
through the planets' grid coordinates (`grid[y][x]` is `y*4+x`).  No
validation is performed, and the target is re-read after the source update
exactly as in `GameBoard.attack`. -/
def simulate_move (b : Board) (si ti : ℕ) (ships : ℤ) : Board :=
  let new_board := copy_board b
  let sIdx := (b.planets.getD si default).y * 4 + (b.planets.getD si default).x
  let tIdx := (b.planets.getD ti default).y * 4 + (b.planets.getD ti default).x
  let planets1 := new_board.planets.set sIdx
    ((new_board.planets.getD sIdx default).remove_ships ships)
  let new_source := planets1.getD sIdx default
  let new_target := planets1.getD tIdx default
  if new_target.owner = new_source.owner then
    { new_board with planets := planets1.set tIdx (new_target.add_ships ships) }
  else if new_target.ships < ships then
    let captured : Planet :=
      { new_target with owner := new_source.owner, ships := ships - new_target.ships }
    { new_board with planets := planets1.set tIdx captured }
  else
    { new_board with planets := planets1.set tIdx (new_target.remove_ships ships) }

/-- A candidate move `(source index, target index, ships, aggressiveness)`. -/
def FMove : Type := ℕ × ℕ × ℤ × PyFloat

instance : DecidableEq FMove := fun a b =>
  instDecidableEqProd a b

/-- `MinimaxAI.get_possible_moves`.  `fuzzyTurn` is the turn counter of the
board the `FuzzyLogic` helper was constructed on (`self.board.turn`), which
during a search is the root board, not the node board `b`.  Sources are
iterated in planet-list order; for each source with more than one ship the
(up to) 8 closest other planets are scored, candidates with a zero ship
recommendation are dropped, and the result is sorted by descending
aggressiveness (stable, as Python's `sort(reverse=True)`). -/
def get_possible_moves (fuzzyTurn : ℕ) (b : Board) (player : Side) :
    List FMove :=
  let source_idxs := (List.range b.planets.length).filter
    (fun i => (b.planets.getD i default).owner = some player)
  let moves := source_idxs.flatMap (fun si =>
    let source := b.planets.getD si default
    if source.ships ≤ 1 then []
    else
      let all_targets := (List.range b.planets.length).filter (fun j => j ≠ si)
      let closest_targets := find_closest_planets b si all_targets 8
      closest_targets.filterMap (fun td =>
        let target := b.planets.getD td.1 default
        let aggressiveness := evaluate_attack fuzzyTurn source target
        let recommended_ships :=
          get_ship_count_recommendation source target player aggressiveness
        if 0 < recommended_ships then some (si, td.1, recommended_ships, aggressiveness)
        else none))
  stableSort (fun m1 m2 => PyFloat.le m2.2.2.2 m1.2.2.2) moves

/-- The best-move triple `(source index, target index, ship count)`. -/
def BMove : Type := ℕ × ℕ × ℤ

instance : DecidableEq BMove := fun a b =>
  instDecidableEqProd a b

/-- The loop state of one minimax node: the varying bound (alpha at a
maximizing node, beta at a minimizing one), the best score so far
(`max_eval` / `min_eval`), the best move, and the break flag. -/
structure MMState : Type where
  bound : XQ
  best_val : XQ
  best_move : Option BMove
  broke : Bool

/-- `MinimaxAI.minimax` with alpha-beta pruning.  `own` is the owner the AI
instance controls, `fuzzyTurn` the turn of the board `self.fuzzy` was built
on.  The `for`-loop with `break` is a fold carrying `MMState`. -/
def minimax (own : Side) (fuzzyTurn : ℕ) :
    ℕ → Board → XQ → XQ → Bool → XQ × Option BMove
  | 0, b, _, _, _ => (XQ.fin (PyFloat.ofInt (evaluate_board own b)), none)
  | depth + 1, b, alpha, beta, is_maximizing =>
    if b.game_over then (XQ.fin (PyFloat.ofInt (evaluate_board own b)), none)
    else
      let current_player := if is_maximizing then own else otherSide own
      let possible_moves := get_possible_moves fuzzyTurn b current_player
      if possible_moves.isEmpty then
        (XQ.fin (PyFloat.ofInt (evaluate_board own b)), none)
      else if is_maximizing then
        let st := possible_moves.foldl (fun (st : MMState) (m : FMove) =>
          if st.broke then st
          else
            let new_board := simulate_move b m.1 m.2.1 m.2.2.1
            let child := minimax own fuzzyTurn depth new_board st.bound beta false
            let eval_score := XQ.addF child.1 (m.2.2.2.mul (PyFloat.ofInt 10))
            let st1 :=
              if XQ.lt st.best_val eval_score then
                { st with best_val := eval_score
                          best_move := some (m.1, m.2.1, m.2.2.1) }
              else st
            let alpha2 := XQ.max2 st1.bound eval_score
            { st1 with bound := alpha2, broke := XQ.le beta alpha2 })
          { bound := alpha, best_val := XQ.ninf, best_move := none, broke := false }
        (st.best_val, st.best_move)
      else
        let st := possible_moves.foldl (fun (st : MMState) (m : FMove) =>
          if st.broke then st
          else
            let new_board := simulate_move b m.1 m.2.1 m.2.2.1
            let child := minimax own fuzzyTurn depth new_board alpha st.bound true
            let eval_score := child.1
            let st1 :=
              if XQ.lt eval_score st.best_val then
                { st with best_val := eval_score
                          best_move := some (m.1, m.2.1, m.2.2.1) }
              else st
            let beta2 := XQ.min2 st1.bound eval_score
            { st1 with bound := beta2, broke := XQ.le beta2 alpha })
          { bound := beta, best_val := XQ.pinf, best_move := none, broke := false }
        (st.best_val, st.best_move)

/-- The three difficulty tiers of `MinimaxAI.__init__`; any string other
than 'easy' and 'medium' falls into the 'hard' branch. -/
inductive Difficulty : Type
  | easy : Difficulty
  | medium : Difficulty
  | hard : Difficulty
deriving DecidableEq, Repr

/-- The search depth chosen by `MinimaxAI.__init__`. -/
def max_depth : Difficulty → ℕ
  | Difficulty.easy => 1
  | Difficulty.medium => 2
  | Difficulty.hard => 3

/-- `MinimaxAI.get_best_move`: the full-depth search from the AI's live
board, returning only the move. -/
def get_best_move (own : Side) (difficulty : Difficulty) (b : Board) :
    Option BMove :=
  (minimax own b.turn (max_depth difficulty) b XQ.ninf XQ.pinf true).2

/-- The planet object at index `i` (`board.planets[i]`, equivalently
`board.grid[i // 4][i % 4]` on a well-formed board). -/
def planetAt (b : Board) (i : ℕ) : Planet := b.planets.getD i default

theorem getD_set_eq {α : Type} (l : List α) (i : ℕ) (a d : α)
    (h : i < l.length) : (l.set i a).getD i d = a := by
  induction l generalizing i with
  | nil => simp at h
  | cons x xs ih =>
    cases i with
    | zero => rfl
    | succ n => simpa using ih n (by simpa using h)

theorem getD_set_ne {α : Type} (l : List α) {i j : ℕ} (h : i ≠ j) (a d : α) :
    (l.set i a).getD j d = l.getD j d := by
  induction l generalizing i j with
  | nil => rfl
  | cons x xs ih =>
    cases i with
    | zero =>
      cases j with
      | zero => exact absurd rfl h
      | succ m => rfl
    | succ n =>
      cases j with
      | zero => rfl
      | succ m =>
        have hnm : n ≠ m := fun he => h (by rw [he])
        simpa using ih hnm

theorem mem_of_mem_set {α : Type} {l : List α} {i : ℕ} {a p : α}
    (h : p ∈ l.set i a) : p = a ∨ p ∈ l := by
  induction l generalizing i with
  | nil => simp at h
  | cons x xs ih =>
    cases i with
    | zero =>
      rcases List.mem_cons.mp h with h' | h'
      · exact Or.inl h'
      · exact Or.inr (List.mem_cons_of_mem _ h')
    | succ n =>
      rcases List.mem_cons.mp h with h' | h'
      · exact Or.inr (h' ▸ List.mem_cons_self _ _)
      · rcases ih h' with h'' | h''
        · exact Or.inl h''
        · exact Or.inr (List.mem_cons_of_mem _ h'')

theorem getD_mem_or_default {α : Type} (l : List α) (i : ℕ) (d : α) :
    l.getD i d ∈ l ∨ l.getD i d = d := by
  induction l generalizing i with
  | nil => simp
  | cons x xs ih =>
    cases i with
    | zero => exact Or.inl (List.mem_cons_self _ _)
    | succ n =>
      rcases ih n with h | h
      · exact Or.inl (List.mem_cons_of_mem _ (by simpa using h))
      · exact Or.inr (by simpa using h)

theorem pymax_eq_max {α : Type} [LinearOrder α] (a b : α) :
    pymax a b = max a b := by
  simp only [pymax]
  rcases le_or_lt b a with h | h
  · rw [if_pos h, max_eq_left h]
  · rw [if_neg (not_le.mpr h), max_eq_right h.le]

theorem pymin_eq_min {α : Type} [LinearOrder α] (a b : α) :
    pymin a b = min a b := by
  simp only [pymin]
  rcases le_or_lt a b with h | h
  · rw [if_pos h, min_eq_left h]
  · rw [if_neg (not_le.mpr h), min_eq_right h.le]

/-- C3: for every board and attack request, if the source is not owned by
the current side, or the ship count is below 1, or at least the source's
ships, then `attack` returns the invalid-move signal (`False` in the
source, `none` here) and the board — every field, planet list included —
is returned unmodified. -/
theorem attack_invalid_rejected (b : Board) (si ti : ℕ) (count : ℤ)
    (h : (planetAt b si).owner ≠ some b.current_player ∨ count < 1 ∨
      (planetAt b si).ships ≤ count) :
    Board.attack b si ti count = (none, b) := by
  simp only [planetAt] at h
  simp only [Board.attack]
  by_cases h1 : (b.planets.getD si default).owner ≠ some b.current_player
  · rw [if_pos h1]
  · rw [if_neg h1]
    by_cases h2 : (b.planets.getD si default).ships ≤ count
    · rw [if_pos h2]
    · rw [if_neg h2]
      have h3 : count < 1 := by
        rcases h with h | h | h
        · exact absurd h h1
        · exact h
        · exact absurd h h2
      rw [if_pos h3]

/-- Witness for C3 at a concrete board: a zero-ship attack request on the
freshly initialized board is rejected without touching the board. -/
theorem attack_invalid_rejected_witness :
    Board.attack (initialize_board (fun _ => 2)) 0 5 0 =
      (none, initialize_board (fun _ => 2)) :=
  attack_invalid_rejected (initialize_board (fun _ => 2)) 0 5 0
    (Or.inr (Or.inl (by decide)))

/-- C10: a board produced by `simulate_move` keeps the turn counter and the
current side of the board it was derived from (as does `copy_board`), so
no simulated search node ever advances the turn — the search never calls
`end_turn` or ship generation. -/
theorem simulate_move_preserves_turn (b : Board) (si ti : ℕ) (ships : ℤ) :
    (simulate_move b si ti ships).turn = b.turn ∧
    (simulate_move b si ti ships).current_player = b.current_player ∧
    (copy_board b).turn = b.turn ∧
    (copy_board b).current_player = b.current_player := by
  refine ⟨?_, ?_, rfl, rfl⟩ <;>
    · simp only [simulate_move]
      split_ifs <;> rfl

/-- C7: `get_best_move` is deterministic — identical board states (with the
same controlled side and difficulty) give identical results.  The embedding
of the full search pipeline (`minimax`, `get_possible_moves`,
`evaluate_attack`, `find_path`) is a pure function with no random-number
input, mirroring the absence of any randomness in the Python search code. -/
theorem get_best_move_deterministic (own : Side) (difficulty : Difficulty)
    (b b' : Board) (h : b = b') :
    get_best_move own difficulty b = get_best_move own difficulty b' := by
  rw [h]

/-- Witness for C7 at a concrete board. -/
theorem get_best_move_deterministic_witness :
    get_best_move Side.ai Difficulty.easy (initialize_board (fun _ => 2)) =
      get_best_move Side.ai Difficulty.easy (initialize_board (fun _ => 2)) :=
  get_best_move_deterministic Side.ai Difficulty.easy _ _ rfl

/-- C2 (amended): for every valid attack between two distinct planets
(source owned by the acting side, `1 ≤ sent < source.ships`), the attack
succeeds and: the source loses exactly `sent` ships; if the owners match,
the target ends with `min(prior + sent, max_capacity)` ships under the same
owner (reinforcement); if the owners differ and `sent > prior`, the target
changes to the attacker's side with `sent - prior` ships (capture); if the
owners differ and `sent ≤ prior`, ownership is unchanged and the target
ends with `prior - sent` ships (defense).  The distinctness hypothesis is
forced: the aliased self-attack violates these laws (see the
counterexample). -/
theorem attack_resolution_laws (b : Board) (si ti : ℕ) (count : ℤ)
    (hne : si ≠ ti) (hsi : si < b.planets.length) (hti : ti < b.planets.length)
    (hown : (planetAt b si).owner = some b.current_player)
    (h1 : 1 ≤ count) (h2 : count < (planetAt b si).ships) :
    (Board.attack b si ti count).1.isSome = true ∧
    (planetAt (Board.attack b si ti count).2 si).ships =
      (planetAt b si).ships - count ∧
    ((planetAt b ti).owner = (planetAt b si).owner →
      (planetAt (Board.attack b si ti count).2 ti).owner = (planetAt b ti).owner ∧
      (planetAt (Board.attack b si ti count).2 ti).ships =
        min ((planetAt b ti).ships + count) (planetAt b ti).max_ships) ∧
    ((planetAt b ti).owner ≠ (planetAt b si).owner →
      (planetAt b ti).ships < count →
      (planetAt (Board.attack b si ti count).2 ti).owner = (planetAt b si).owner ∧
      (planetAt (Board.attack b si ti count).2 ti).ships =
        count - (planetAt b ti).ships) ∧
    ((planetAt b ti).owner ≠ (planetAt b si).owner →
      count ≤ (planetAt b ti).ships →
      (planetAt (Board.attack b si ti count).2 ti).owner = (planetAt b ti).owner ∧
      (planetAt (Board.attack b si ti count).2 ti).ships =
        (planetAt b ti).ships - count) := by
  simp only [planetAt] at hown h2 ⊢
  simp only [Board.attack]
  rw [if_neg (fun hc => hc hown), if_neg (by omega), if_neg (by omega)]
  have hget : (b.planets.set si ((b.planets.getD si default).remove_ships count)).getD
      ti default = b.planets.getD ti default := getD_set_ne b.planets hne _ _
  rw [hget]
  have hsrc : ∀ q : Planet,
      (((b.planets.set si ((b.planets.getD si default).remove_ships count)).set ti q).getD
        si default).ships = (b.planets.getD si default).ships - count := by
    intro q
    rw [getD_set_ne _ (fun hc => hne hc.symm) q default,
      getD_set_eq b.planets si _ default hsi]
    simp only [Planet.remove_ships, pymax_eq_max]
    omega
  have htgt : ∀ q : Planet,
      ((b.planets.set si ((b.planets.getD si default).remove_ships count)).set ti q).getD
        ti default = q := by
    intro q
    exact getD_set_eq _ ti q default (by simpa using hti)
  by_cases hsame : (b.planets.getD ti default).owner = (b.planets.getD si default).owner
  · rw [if_pos hsame]
    refine ⟨rfl, hsrc _, fun _ => ?_, fun hd _ => absurd hsame hd,
      fun hd _ => absurd hsame hd⟩
    dsimp only
    rw [htgt _]
    simp only [Planet.add_ships, pymin_eq_min]
    constructor <;> trivial
  · rw [if_neg hsame]
    by_cases hwin : (b.planets.getD ti default).ships < count
    · rw [if_pos hwin]
      refine ⟨rfl, hsrc _, fun hs => absurd hs hsame, fun _ _ => ?_,
        fun _ hle => by omega⟩
      dsimp only
      rw [htgt _]
      constructor <;> trivial
    · rw [if_neg hwin]
      refine ⟨rfl, hsrc _, fun hs => absurd hs hsame, fun _ hlt => by omega,
        fun _ hle => ?_⟩
      dsimp only
      rw [htgt _]
      simp only [Planet.remove_ships, pymax_eq_max]
      exact ⟨by trivial, by omega⟩

/-- A concrete board for exercising the attack laws: planet 0 is owned by
the current side with 5 of 9 ships, all other planets are neutral. -/
def bC2 : Board :=
  { planets := (List.range 16).map (fun i =>
      if i = 0 then
        { x := 0, y := 0, size := 3, owner := some Side.player, ships := 5,
          max_ships := 9 }
      else
        { x := i % 4, y := i / 4, size := 2, owner := none, ships := 0,
          max_ships := 6 }),
    turn := 0,
    current_player := Side.player,
    selected_planet := none,
    game_over := false,
    winner := none }

/-- C2 counterexample: the claim quantifies over every attack whose source
is owned by the acting side with `1 ≤ sent < source.ships`; the self-attack
`attack(p, p, 2)` on planet 0 of `bC2` satisfies those conditions and has
matching owners, yet the target ends with 5 ships, not the
`min(prior + sent, max_capacity) = 7` required by the reinforcement law
(and the source does not decrease by `sent` either): the source's ships are
removed before the aliased target is read. -/
theorem attack_self_aliasing_cex :
    (planetAt bC2 0).owner = some bC2.current_player ∧
    (1 : ℤ) ≤ 2 ∧ 2 < (planetAt bC2 0).ships ∧
    (planetAt (Board.attack bC2 0 0 2).2 0).ships = 5 ∧
    min ((planetAt bC2 0).ships + 2) (planetAt bC2 0).max_ships = 7 ∧
    ¬ ((planetAt (Board.attack bC2 0 0 2).2 0).ships =
      min ((planetAt bC2 0).ships + 2) (planetAt bC2 0).max_ships) := by
  have hres : (planetAt (Board.attack bC2 0 0 2).2 0).ships = 5 := by decide
  have hmin : min ((planetAt bC2 0).ships + 2) (planetAt bC2 0).max_ships = 7 := by
    have h5 : (planetAt bC2 0).ships = 5 := by decide
    have h9 : (planetAt bC2 0).max_ships = 9 := by decide
    rw [h5, h9]
    omega
  exact ⟨by decide, by decide, by decide, hres, hmin, by rw [hres, hmin]; omega⟩

/-- Witness for C2 at a concrete valid attack: planet 0 of `bC2` sends 2 of
its 5 ships to the neutral planet 1 (capture with 2 ships). -/
theorem attack_resolution_laws_witness :
    (Board.attack bC2 0 1 2).1.isSome = true ∧
    (planetAt (Board.attack bC2 0 1 2).2 0).ships = (planetAt bC2 0).ships - 2 ∧
    ((planetAt bC2 1).owner = (planetAt bC2 0).owner →
      (planetAt (Board.attack bC2 0 1 2).2 1).owner = (planetAt bC2 1).owner ∧
      (planetAt (Board.attack bC2 0 1 2).2 1).ships =
        min ((planetAt bC2 1).ships + 2) (planetAt bC2 1).max_ships) ∧
    ((planetAt bC2 1).owner ≠ (planetAt bC2 0).owner →
      (planetAt bC2 1).ships < 2 →
      (planetAt (Board.attack bC2 0 1 2).2 1).owner = (planetAt bC2 0).owner ∧
      (planetAt (Board.attack bC2 0 1 2).2 1).ships = 2 - (planetAt bC2 1).ships) ∧
    ((planetAt bC2 1).owner ≠ (planetAt bC2 0).owner →
      2 ≤ (planetAt bC2 1).ships →
      (planetAt (Board.attack bC2 0 1 2).2 1).owner = (planetAt bC2 1).owner ∧
      (planetAt (Board.attack bC2 0 1 2).2 1).ships =
        (planetAt bC2 1).ships - 2) :=
  attack_resolution_laws bC2 0 1 2 (by decide) (by decide) (by decide)
    (by decide) (by decide) (by decide)

theorem generate_ships_owner (p : Planet) :
    (Planet.generate_ships p).owner = p.owner := by
  cases h : p.owner <;> simp [Planet.generate_ships, h, Planet.add_ships]

theorem countPlanets_generate (b : Board) (s : Side) :
    countPlanets (generate_all_ships b) s = countPlanets b s := by
  simp only [countPlanets, get_player_planets, generate_all_ships]
  rw [List.filter_map, List.length_map]
  congr 1
  apply List.filter_congr
  intro p _
  simp [generate_ships_owner]

theorem check_game_over_turn_limit (b : Board) (h30 : 30 ≤ b.turn)
    (hp0 : countPlanets b Side.player ≠ 0) (ha0 : countPlanets b Side.ai ≠ 0)
    (hpw : countPlanets b Side.player < 12) (haw : countPlanets b Side.ai < 12)
    (hgt : countPlanets b Side.ai < countPlanets b Side.player) :
    check_game_over b = { b with game_over := true, winner := some Outcome.player } := by
  unfold check_game_over
  rw [if_neg hp0, if_neg ha0,
    if_neg (show ¬ WIN_CONDITION_PLANETS ≤ countPlanets b Side.player by
      simp only [WIN_CONDITION_PLANETS]; omega),
    if_neg (show ¬ WIN_CONDITION_PLANETS ≤ countPlanets b Side.ai by
      simp only [WIN_CONDITION_PLANETS]; omega),
    if_pos (show MAX_TURNS ≤ b.turn by simpa [MAX_TURNS] using h30)]
  dsimp only
  rw [if_pos hgt]

/-- `check_game_over` never changes the turn counter, the current side,
the selection or the planet list — it only sets `game_over`/`winner`. -/
theorem check_game_over_frame (b : Board) :
    (check_game_over b).turn = b.turn ∧
    (check_game_over b).current_player = b.current_player ∧
    (check_game_over b).selected_planet = b.selected_planet ∧
    (check_game_over b).planets = b.planets := by
  unfold check_game_over
  dsimp only
  split_ifs <;> exact ⟨rfl, rfl, rfl, rfl⟩

/-- The four early outcomes of `check_game_over`, in source order. -/
theorem check_game_over_cases (b : Board) :
    (countPlanets b Side.player = 0 →
      check_game_over b = { b with game_over := true, winner := some Outcome.ai }) ∧
    (countPlanets b Side.player ≠ 0 → countPlanets b Side.ai = 0 →
      check_game_over b = { b with game_over := true, winner := some Outcome.player }) ∧
    (countPlanets b Side.player ≠ 0 → countPlanets b Side.ai ≠ 0 →
      12 ≤ countPlanets b Side.player →
      check_game_over b = { b with game_over := true, winner := some Outcome.player }) ∧
    (countPlanets b Side.player ≠ 0 → countPlanets b Side.ai ≠ 0 →
      countPlanets b Side.player < 12 → 12 ≤ countPlanets b Side.ai →
      check_game_over b = { b with game_over := true, winner := some Outcome.ai }) := by
  unfold check_game_over
  dsimp only
  refine ⟨fun h1 => ?_, fun h1 h2 => ?_, fun h1 h2 h3 => ?_, fun h1 h2 h3 h4 => ?_⟩
  · rw [if_pos h1]
  · rw [if_neg h1, if_pos h2]
  · rw [if_neg h1, if_neg h2,
      if_pos (show WIN_CONDITION_PLANETS ≤ countPlanets b Side.player by
        simpa [WIN_CONDITION_PLANETS] using h3)]
  · rw [if_neg h1, if_neg h2,
      if_neg (show ¬ WIN_CONDITION_PLANETS ≤ countPlanets b Side.player by
        simp only [WIN_CONDITION_PLANETS]; omega),
      if_pos (show WIN_CONDITION_PLANETS ≤ countPlanets b Side.ai by
        simpa [WIN_CONDITION_PLANETS] using h4)]

/-- The turn-limit branch of `check_game_over` in full generality: when no
earlier condition fires and the turn limit is reached, the side with more
planets wins and equal counts give a tie. -/
theorem check_game_over_turn_limit_cases (b : Board) (h30 : 30 ≤ b.turn)
    (hp0 : countPlanets b Side.player ≠ 0) (ha0 : countPlanets b Side.ai ≠ 0)
    (hpw : countPlanets b Side.player < 12) (haw : countPlanets b Side.ai < 12) :
    check_game_over b = { b with
      game_over := true
      winner :=
        if countPlanets b Side.ai < countPlanets b Side.player then
          some Outcome.player
        else if countPlanets b Side.player < countPlanets b Side.ai then
          some Outcome.ai
        else some Outcome.tie } := by
  unfold check_game_over
  dsimp only
  rw [if_neg hp0, if_neg ha0,
    if_neg (show ¬ WIN_CONDITION_PLANETS ≤ countPlanets b Side.player by
      simp only [WIN_CONDITION_PLANETS]; omega),
    if_neg (show ¬ WIN_CONDITION_PLANETS ≤ countPlanets b Side.ai by
      simp only [WIN_CONDITION_PLANETS]; omega),
    if_pos (show MAX_TURNS ≤ b.turn by simpa [MAX_TURNS] using h30)]

/-- C5: `end_turn` generates ships first (the resulting planet list is the
old one with `generate_ships` applied to every planet), then raises the
turn counter by one, swaps the side, clears the selection, and only then
checks the terminal conditions in the fixed order elimination ('player'
eliminated, then 'ai' eliminated), domination (≥ 12 planets, 'player'
checked first), then the turn limit (turn ≥ 30: the side with more planets
wins, equal counts give a tie).  In the claim's scenario — `turn = 29`,
side A ('player') holding 5 planets, side B ('ai') holding 3 — the call
raises the turn to 30, neither elimination nor domination fires, the
turn-limit check fires, and the winner becomes side A.  (Ship generation
changes no ownership, so planet counts after `end_turn` match those
before.) -/
theorem end_turn_turn_limit_winner :
    (∀ b : Board,
      (end_turn b).turn = b.turn + 1 ∧
      (end_turn b).current_player = otherSide b.current_player ∧
      (end_turn b).selected_planet = none ∧
      (end_turn b).planets = b.planets.map Planet.generate_ships) ∧
    (∀ b : Board, countPlanets b Side.player = 0 →
      (end_turn b).game_over = true ∧ (end_turn b).winner = some Outcome.ai) ∧
    (∀ b : Board, countPlanets b Side.player ≠ 0 → countPlanets b Side.ai = 0 →
      (end_turn b).game_over = true ∧ (end_turn b).winner = some Outcome.player) ∧
    (∀ b : Board, countPlanets b Side.player ≠ 0 → countPlanets b Side.ai ≠ 0 →
      12 ≤ countPlanets b Side.player →
      (end_turn b).game_over = true ∧ (end_turn b).winner = some Outcome.player) ∧
    (∀ b : Board, countPlanets b Side.player ≠ 0 → countPlanets b Side.ai ≠ 0 →
      countPlanets b Side.player < 12 → 12 ≤ countPlanets b Side.ai →
      (end_turn b).game_over = true ∧ (end_turn b).winner = some Outcome.ai) ∧
    (∀ b : Board, countPlanets b Side.player ≠ 0 → countPlanets b Side.ai ≠ 0 →
      countPlanets b Side.player < 12 → countPlanets b Side.ai < 12 →
      30 ≤ b.turn + 1 →
      (end_turn b).game_over = true ∧
      (countPlanets b Side.ai < countPlanets b Side.player →
        (end_turn b).winner = some Outcome.player) ∧
      (countPlanets b Side.player < countPlanets b Side.ai →
        (end_turn b).winner = some Outcome.ai) ∧
      (countPlanets b Side.player = countPlanets b Side.ai →
        (end_turn b).winner = some Outcome.tie)) ∧
    (∀ b : Board, b.turn = 29 →
      countPlanets b Side.player = 5 → countPlanets b Side.ai = 3 →
      (end_turn b).turn = 30 ∧
      (end_turn b).current_player = otherSide b.current_player ∧
      (end_turn b).selected_planet = none ∧
      (end_turn b).game_over = true ∧
      (end_turn b).winner = some Outcome.player) := by
  have hcnt : ∀ (b : Board) (s : Side),
      countPlanets { generate_all_ships b with
        turn := (generate_all_ships b).turn + 1
        current_player := otherSide (generate_all_ships b).current_player
        selected_planet := none } s = countPlanets b s :=
    fun b s => countPlanets_generate b s
  refine ⟨fun b => ?_, fun b h1 => ?_, fun b h1 h2 => ?_, fun b h1 h2 h3 => ?_,
    fun b h1 h2 h3 h4 => ?_, fun b h1 h2 h3 h4 h30 => ?_, fun b ht hp ha => ?_⟩
  · simp only [end_turn]
    refine ⟨?_, ?_, ?_, ?_⟩
    · rw [(check_game_over_frame _).1]
      rfl
    · rw [(check_game_over_frame _).2.1]
      rfl
    · rw [(check_game_over_frame _).2.2.1]
    · rw [(check_game_over_frame _).2.2.2]
      rfl
  · simp only [end_turn]
    rw [(check_game_over_cases _).1 (by rw [hcnt]; exact h1)]
    exact ⟨rfl, rfl⟩
  · simp only [end_turn]
    rw [(check_game_over_cases _).2.1 (by rw [hcnt]; exact h1)
      (by rw [hcnt]; exact h2)]
    exact ⟨rfl, rfl⟩
  · simp only [end_turn]
    rw [(check_game_over_cases _).2.2.1 (by rw [hcnt]; exact h1)
      (by rw [hcnt]; exact h2) (by rw [hcnt]; exact h3)]
    exact ⟨rfl, rfl⟩
  · simp only [end_turn]
    rw [(check_game_over_cases _).2.2.2 (by rw [hcnt]; exact h1)
      (by rw [hcnt]; exact h2) (by rw [hcnt]; exact h3) (by rw [hcnt]; exact h4)]
    exact ⟨rfl, rfl⟩
  · simp only [end_turn]
    rw [check_game_over_turn_limit_cases _ (by exact h30)
      (by rw [hcnt]; exact h1) (by rw [hcnt]; exact h2)
      (by rw [hcnt]; exact h3) (by rw [hcnt]; exact h4)]
    dsimp only
    simp only [hcnt]
    refine ⟨by trivial, fun hlt => ?_, fun hlt => ?_, fun heq => ?_⟩
    · rw [if_pos hlt]
    · rw [if_neg (by omega), if_pos hlt]
    · rw [if_neg (by omega), if_neg (by omega)]
  · have hp' : countPlanets (generate_all_ships b) Side.player = 5 :=
      (countPlanets_generate b Side.player).trans hp
    have ha' : countPlanets (generate_all_ships b) Side.ai = 3 :=
      (countPlanets_generate b Side.ai).trans ha
    simp only [end_turn]
    rw [check_game_over_turn_limit]
    · refine ⟨?_, rfl, rfl, rfl, rfl⟩
      show (generate_all_ships b).turn + 1 = 30
      show b.turn + 1 = 30
      omega
    · show 30 ≤ (generate_all_ships b).turn + 1
      show 30 ≤ b.turn + 1
      omega
    · show countPlanets (generate_all_ships b) Side.player ≠ 0
      omega
    · show countPlanets (generate_all_ships b) Side.ai ≠ 0
      omega
    · show countPlanets (generate_all_ships b) Side.player < 12
      omega
    · show countPlanets (generate_all_ships b) Side.ai < 12
      omega
    · show countPlanets (generate_all_ships b) Side.ai <
        countPlanets (generate_all_ships b) Side.player
      omega

/-- A concrete board with `turn = 29`, 5 planets owned by 'player' and 3 by
'ai' (indices 0-4 player, 5-7 ai, the rest neutral). -/
def bC5 : Board :=
  { planets := (List.range 16).map (fun i =>
      { x := i % 4, y := i / 4, size := 2,
        owner := if i < 5 then some Side.player
          else if i < 8 then some Side.ai else none,
        ships := 4, max_ships := 6 }),
    turn := 29,
    current_player := Side.ai,
    selected_planet := none,
    game_over := false,
    winner := none }

/-- Witness for C5 on the concrete board `bC5`. -/
theorem end_turn_turn_limit_winner_witness :
    (end_turn bC5).turn = 30 ∧
    (end_turn bC5).current_player = otherSide bC5.current_player ∧
    (end_turn bC5).selected_planet = none ∧
    (end_turn bC5).game_over = true ∧
    (end_turn bC5).winner = some Outcome.player :=
  end_turn_turn_limit_winner.2.2.2.2.2.2 bC5 rfl (by decide) (by decide)

/-- Board states reachable through the public operations: initialization
(with per-planet sizes drawn from {1,2,3}), `attack`, `generate_all_ships`
and `end_turn`. -/
inductive Reachable : Board → Prop
  | init (sizes : ℕ → ℕ) (hs : ∀ i, i < 16 → 1 ≤ sizes i ∧ sizes i ≤ 3) :
      Reachable (initialize_board sizes)
  | attack_step (b : Board) (si ti : ℕ) (count : ℤ) :
      Reachable b → Reachable (Board.attack b si ti count).2
  | generate_step (b : Board) :
      Reachable b → Reachable (generate_all_ships b)
  | end_turn_step (b : Board) :
      Reachable b → Reachable (end_turn b)

/-- The per-planet facts preserved by every operation. -/
def PlanetInv (p : Planet) : Prop := 0 ≤ p.ships ∧ 0 ≤ p.max_ships

theorem planetInv_add_ships {p : Planet} (h : PlanetInv p) {c : ℤ}
    (hc : 0 ≤ c) : PlanetInv (p.add_ships c) := by
  obtain ⟨h1, h2⟩ := h
  refine ⟨?_, h2⟩
  simp only [Planet.add_ships, pymin_eq_min, le_min_iff]
  omega

theorem planetInv_remove_ships {p : Planet} (h : PlanetInv p) (c : ℤ) :
    PlanetInv (p.remove_ships c) := by
  obtain ⟨h1, h2⟩ := h
  refine ⟨?_, h2⟩
  simp only [Planet.remove_ships, pymax_eq_max]
  omega

theorem planetInv_generate {p : Planet} (h : PlanetInv p) :
    PlanetInv (Planet.generate_ships p) := by
  cases hp : p.owner with
  | none => simpa [Planet.generate_ships, hp] using h
  | some s =>
    simp only [Planet.generate_ships, hp]
    exact planetInv_add_ships h (by omega)

theorem planetInv_getD {b : Board} (hb : ∀ p ∈ b.planets, PlanetInv p)
    (i : ℕ) : PlanetInv (b.planets.getD i default) := by
  rcases getD_mem_or_default b.planets i default with h | h
  · exact hb _ h
  · rw [h]
    exact ⟨le_refl 0, le_refl 0⟩

theorem check_game_over_planets (b : Board) :
    (check_game_over b).planets = b.planets := by
  unfold check_game_over
  dsimp only
  split_ifs <;> rfl

/-- The target planet re-read after the source update satisfies the
invariant. -/
theorem planetInv_target (b : Board) (ih : ∀ p ∈ b.planets, PlanetInv p)
    (si ti : ℕ) (count : ℤ) :
    PlanetInv ((b.planets.set si
      ((b.planets.getD si default).remove_ships count)).getD ti default) := by
  rcases getD_mem_or_default
    (b.planets.set si ((b.planets.getD si default).remove_ships count))
    ti default with h | h
  · rcases mem_of_mem_set h with h' | h'
    · rw [h']
      exact planetInv_remove_ships (planetInv_getD ih si) count
    · exact ih _ h'
  · rw [h]
    exact ⟨le_refl 0, le_refl 0⟩

/-- The invariant holds on every reachable board. -/
theorem reachable_planetInv (b : Board) (hb : Reachable b) :
    ∀ p ∈ b.planets, PlanetInv p := by
  induction hb with
  | init sizes hs =>
    intro p hp
    simp only [initialize_board, List.mem_map] at hp
    obtain ⟨i, _, rfl⟩ := hp
    have hmax : (0 : ℤ) ≤ (sizes i : ℤ) * 3 :=
      mul_nonneg (Int.natCast_nonneg _) (by omega)
    refine ⟨?_, ?_⟩
    · split_ifs <;> simp [Planet.init]
    · split_ifs <;> simp only [Planet.init] <;> exact hmax
  | attack_step b si ti count hb ih =>
    intro p hp
    simp only [Board.attack] at hp
    split_ifs at hp with h1 h2 h3 h4 h5
    · exact ih p hp
    · exact ih p hp
    · exact ih p hp
    · rcases mem_of_mem_set hp with rfl | hp'
      · exact planetInv_add_ships (planetInv_target b ih si ti count) (by omega)
      · rcases mem_of_mem_set hp' with rfl | hp''
        · exact planetInv_remove_ships (planetInv_getD ih si) count
        · exact ih p hp''
    · rcases mem_of_mem_set hp with rfl | hp'
      · exact ⟨by dsimp only; omega, (planetInv_target b ih si ti count).2⟩
      · rcases mem_of_mem_set hp' with rfl | hp''
        · exact planetInv_remove_ships (planetInv_getD ih si) count
        · exact ih p hp''
    · rcases mem_of_mem_set hp with rfl | hp'
      · exact planetInv_remove_ships (planetInv_target b ih si ti count) count
      · rcases mem_of_mem_set hp' with rfl | hp''
        · exact planetInv_remove_ships (planetInv_getD ih si) count
        · exact ih p hp''
  | generate_step b hb ih =>
    intro p hp
    simp only [generate_all_ships, List.mem_map] at hp
    obtain ⟨q, hq, rfl⟩ := hp
    exact planetInv_generate (ih q hq)
  | end_turn_step b hb ih =>
    intro p hp
    simp only [end_turn] at hp
    rw [check_game_over_planets] at hp
    dsimp only at hp
    simp only [generate_all_ships, List.mem_map] at hp
    obtain ⟨q, hq, rfl⟩ := hp
    exact planetInv_generate (ih q hq)

/-- C1 (amended): on every reachable board every planet's ship count is
non-negative.  The claimed upper bound `ships ≤ size * 3` does not hold: it
already fails on the freshly initialized board (see the counterexample). -/
theorem reachable_ships_nonneg (b : Board) (hb : Reachable b) :
    ∀ p ∈ b.planets, 0 ≤ p.ships := by
  intro p hp
  exact (reachable_planetInv b hb p hp).1

/-- Witness for C1 (amended) on the freshly initialized board. -/
theorem reachable_ships_nonneg_witness :
    0 ≤ (planetAt (initialize_board (fun _ => 2)) 0).ships :=
  reachable_ships_nonneg (initialize_board (fun _ => 2))
    (Reachable.init (fun _ => 2) (by decide))
    (planetAt (initialize_board (fun _ => 2)) 0) (by decide)

/-- C1 counterexample: the board initialized with every size equal to 3
(a legal draw of `random.randint(1, 3)`, so the board is reachable) gives
planet (0,0) 10 ships while its capacity is `size * 3 = 9`: the invariant
`ships ≤ size * 3` is already broken at initialization. -/
theorem initial_board_exceeds_capacity :
    Reachable (initialize_board (fun _ => 3)) ∧
    planetAt (initialize_board (fun _ => 3)) 0 ∈
      (initialize_board (fun _ => 3)).planets ∧
    (planetAt (initialize_board (fun _ => 3)) 0).ships = 10 ∧
    (planetAt (initialize_board (fun _ => 3)) 0).size = 3 ∧
    ¬ ((planetAt (initialize_board (fun _ => 3)) 0).ships ≤
      ((planetAt (initialize_board (fun _ => 3)) 0).size : ℤ) * 3) :=
  ⟨Reachable.init (fun _ => 3) (by decide), by decide, by decide, by decide,
    by decide⟩

/-- A reachable board marked as finished, for exercising `copy_board`. -/
def bC6 : Board :=
  { initialize_board (fun _ => 2) with
    turn := 7
    game_over := true
    winner := some Outcome.ai }

/-- C6 counterexample: `copy_board` does not copy every field — it resets
`game_over`, `winner` and `selected_planet` to the fresh-board defaults, so
on a board whose `game_over` flag is set the clone's terminal flags differ
from the source's. -/
theorem copy_board_resets_terminal_flags :
    bC6.game_over = true ∧ (copy_board bC6).game_over = false ∧
    bC6.winner = some Outcome.ai ∧ (copy_board bC6).winner = none ∧
    ¬ ((copy_board bC6).game_over = bC6.game_over) := by
  refine ⟨rfl, rfl, rfl, rfl, ?_⟩
  decide

/-- C6 (amended): on a well-formed board (16 planets stored row-major, each
planet's coordinates matching its grid slot), `copy_board` reproduces the
planet list exactly — every planet of the clone has the same position,
size, owner, ship count and capacity — and keeps `turn` and
`current_player`; `selected_planet`, `game_over` and `winner` are reset to
`none` / `false` / `none` rather than copied.  In this value-level
embedding the clone shares no mutable state with the source by
construction, matching the fresh `Planet` objects the source allocates. -/
theorem copy_board_fields (b : Board) (hlen : b.planets.length = 16)
    (hxy : ∀ i, i < 16 → (planetAt b i).x = i % 4 ∧ (planetAt b i).y = i / 4) :
    (copy_board b).planets = b.planets ∧
    (copy_board b).turn = b.turn ∧
    (copy_board b).current_player = b.current_player ∧
    (copy_board b).selected_planet = none ∧
    (copy_board b).game_over = false ∧
    (copy_board b).winner = none := by
  refine ⟨?_, rfl, rfl, rfl, rfl, rfl⟩
  simp only [copy_board]
  apply List.ext_getElem
  · simp [hlen]
  · intro i hi1 hi2
    have hi : i < 16 := by simpa using hi1
    rw [List.getElem_map, List.getElem_range]
    obtain ⟨hx, hy⟩ := hxy i hi
    simp only [planetAt] at hx hy
    have hgetD : b.planets.getD i default = b.planets[i] := by
      rw [List.getD_eq_getElem?_getD, List.getElem?_eq_getElem hi2]
      rfl
    rw [hgetD] at hx hy ⊢
    cases hp : b.planets[i] with
    | mk px py psize powner pships pmax =>
      rw [hp] at hx hy
      simp only at hx hy
      simp [hx, hy]

/-- Witness for C6 (amended) on a freshly initialized board. -/
theorem copy_board_fields_witness :
    (copy_board (initialize_board (fun _ => 1))).planets =
      (initialize_board (fun _ => 1)).planets ∧
    (copy_board (initialize_board (fun _ => 1))).turn =
      (initialize_board (fun _ => 1)).turn ∧
    (copy_board (initialize_board (fun _ => 1))).current_player =
      (initialize_board (fun _ => 1)).current_player ∧
    (copy_board (initialize_board (fun _ => 1))).selected_planet = none ∧
    (copy_board (initialize_board (fun _ => 1))).game_over = false ∧
    (copy_board (initialize_board (fun _ => 1))).winner = none :=
  copy_board_fields (initialize_board (fun _ => 1)) (by decide) (by decide)

/-- The recommendation is either the 0 "skip" result or clamped into
`[1, source.ships - 1]`. -/
theorem rec_bound (source target : Planet) (owner : Side) (agg : PyFloat) :
    get_ship_count_recommendation source target owner agg = 0 ∨
    (1 ≤ get_ship_count_recommendation source target owner agg ∧
      get_ship_count_recommendation source target owner agg ≤
        source.ships - 1) := by
  unfold get_ship_count_recommendation
  by_cases hav : source.ships - 1 ≤ 0
  · rw [if_pos hav]
    exact Or.inl rfl
  · rw [if_neg hav]
    have hbnd : ∀ X : ℤ, 1 ≤ pymax 1 (pymin X (source.ships - 1)) ∧
        pymax 1 (pymin X (source.ships - 1)) ≤ source.ships - 1 := by
      intro X
      rw [pymax_eq_max, pymin_eq_min]
      exact ⟨le_max_left _ _, max_le (by omega) (min_le_right _ _)⟩
    dsimp only
    split
    · exact Or.inl rfl
    · exact Or.inr (hbnd _)

/-- `PyFloat.le ⟨c, d⟩ x` is false when the value of `x` is below `c / d`
(positive denominators). -/
theorem pyfloat_le_false_of_toQ_lt {c d : ℤ} (x : PyFloat) (hden : 0 < x.den)
    (hd : 0 < d) (h : x.toQ < (c : ℚ) / (d : ℚ)) :
    PyFloat.le ⟨c, d⟩ x = false := by
  simp only [PyFloat.le, decide_eq_false_iff_not, not_le]
  have hdq : (0 : ℚ) < (x.den : ℚ) := by exact_mod_cast hden
  have hdq2 : (0 : ℚ) < (d : ℚ) := by exact_mod_cast hd
  rw [PyFloat.toQ, div_lt_div_iff₀ hdq hdq2] at h
  exact_mod_cast h

/-- C8: `get_ship_count_recommendation` returns 0 or an integer in
`[1, source.ships - 1]`; it returns 0 whenever `source.ships ≤ 1`; and in
the non-owned-target case with aggressiveness below 0.4 it returns 0
whenever `target.ships + 1 ≥ source.ships - 1` (the aggressiveness is an
arbitrary float, a fraction with positive denominator). -/
theorem ship_count_recommendation_bounds (source target : Planet)
    (owner : Side) (agg : PyFloat) :
    (get_ship_count_recommendation source target owner agg = 0 ∨
      (1 ≤ get_ship_count_recommendation source target owner agg ∧
        get_ship_count_recommendation source target owner agg ≤
          source.ships - 1)) ∧
    (source.ships ≤ 1 → get_ship_count_recommendation source target owner agg = 0) ∧
    (target.owner ≠ some owner → 0 < agg.den → agg.toQ < 2/5 →
      source.ships - 1 ≤ target.ships + 1 →
      get_ship_count_recommendation source target owner agg = 0) := by
  refine ⟨rec_bound source target owner agg, ?_, ?_⟩
  · intro hle
    unfold get_ship_count_recommendation
    rw [if_pos (by omega)]
  · intro howner hden hlt hge
    unfold get_ship_count_recommendation
    by_cases hav : source.ships - 1 ≤ 0
    · rw [if_pos hav]
    · rw [if_neg hav]
      have h4 : PyFloat.le ⟨2, 5⟩ agg = false :=
        pyfloat_le_false_of_toQ_lt agg hden (by norm_num)
          (by push_cast
              exact hlt)
      have h7 : PyFloat.le ⟨7, 10⟩ agg = false := by
        refine pyfloat_le_false_of_toQ_lt agg hden (by norm_num) ?_
        calc agg.toQ < 2/5 := hlt
          _ < (7 : ℚ) / 10 := by norm_num
      rw [if_neg howner, if_neg (by simp [h7]), if_neg (by simp [h4]),
        if_neg (by omega)]

/-- Witness for C8: a 5-ship source, a neutral 10-ship target, and
aggressiveness 0.1 reach the low-aggressiveness skip: the recommendation
is 0. -/
theorem ship_count_recommendation_bounds_witness :
    get_ship_count_recommendation
      { x := 0, y := 0, size := 2, owner := some Side.ai, ships := 5, max_ships := 6 }
      { x := 1, y := 0, size := 2, owner := none, ships := 10, max_ships := 6 }
      Side.ai ⟨1, 10⟩ = 0 :=
  (ship_count_recommendation_bounds
    { x := 0, y := 0, size := 2, owner := some Side.ai, ships := 5, max_ships := 6 }
    { x := 1, y := 0, size := 2, owner := none, ships := 10, max_ships := 6 }
    Side.ai ⟨1, 10⟩).2.2 (by decide) (by decide)
    (by norm_num [PyFloat.toQ]) (by decide)

theorem mem_insSorted {α : Type} (le : α → α → Bool) (x : α) (l : List α)
    (a : α) : a ∈ insSorted le x l ↔ a = x ∨ a ∈ l := by
  induction l with
  | nil => simp [insSorted]
  | cons y ys ih =>
    simp only [insSorted]
    split
    · simp [List.mem_cons]
    · simp only [List.mem_cons, ih]
      tauto

theorem mem_stableSort {α : Type} (le : α → α → Bool) (l : List α) (a : α) :
    a ∈ stableSort le l ↔ a ∈ l := by
  induction l with
  | nil => simp [stableSort]
  | cons x xs ih => simp [stableSort, mem_insSorted, ih]

/-- C9: every move generated by `get_possible_moves` for a side satisfies
the attack preconditions — the source is owned by that side, the target is
a different planet, and the ship count lies in `[1, source.ships - 1]` —
so when the side is the acting player, `attack` on a generated move never
takes the invalid-move branch. -/
theorem possible_moves_valid (fuzzyTurn : ℕ) (b : Board) (side : Side)
    (m : FMove) (hm : m ∈ get_possible_moves fuzzyTurn b side) :
    (planetAt b m.1).owner = some side ∧
    m.1 ≠ m.2.1 ∧
    1 ≤ m.2.2.1 ∧
    m.2.2.1 ≤ (planetAt b m.1).ships - 1 ∧
    (side = b.current_player →
      (Board.attack b m.1 m.2.1 m.2.2.1).1.isSome = true) := by
  unfold get_possible_moves at hm
  rw [mem_stableSort, List.mem_flatMap] at hm
  obtain ⟨si, hsi, hm⟩ := hm
  rw [List.mem_filter] at hsi
  have howner : (b.planets.getD si default).owner = some side := by
    simpa using hsi.2
  by_cases hsh : (b.planets.getD si default).ships ≤ 1
  · rw [if_pos hsh] at hm
    simp at hm
  · rw [if_neg hsh] at hm
    rw [List.mem_filterMap] at hm
    obtain ⟨td, htd, hsome⟩ := hm
    have hti : td.1 ≠ si := by
      unfold find_closest_planets at htd
      have htd' := List.take_subset _ _ htd
      rw [mem_stableSort, List.mem_map] at htd'
      obtain ⟨t, ht, rfl⟩ := htd'
      rw [List.mem_filter] at ht
      simpa using ht.2
    dsimp only at hsome
    split at hsome
    next hrec =>
      obtain rfl : m = (si, td.1, _, _) := (Option.some_injective _ hsome).symm
      simp only [planetAt]
      have hbnd := rec_bound (b.planets.getD si default)
        (b.planets.getD td.1 default) side
        (evaluate_attack fuzzyTurn (b.planets.getD si default)
          (b.planets.getD td.1 default))
      rcases hbnd with h0 | ⟨hb1, hb2⟩
      · omega
      · refine ⟨howner, fun hc => hti hc.symm, hb1, hb2, fun hcur => ?_⟩
        unfold Board.attack
        rw [if_neg (fun hc => hc (by rw [howner, hcur])),
          if_neg (by omega), if_neg (by omega)]
        dsimp only
        split_ifs <;> rfl
    next => exact absurd hsome (by simp)

/-- A concrete board for the C9 witness: the 'ai' side owns only planet 0
(3 ships), planet 1 is neutral and empty, every other planet is a neutral
fortress, so exactly one move is generated. -/
def bC9 : Board :=
  { planets := (List.range 16).map (fun i =>
      if i = 0 then
        { x := 0, y := 0, size := 2, owner := some Side.ai, ships := 3,
          max_ships := 6 }
      else if i = 1 then
        { x := 1, y := 0, size := 2, owner := none, ships := 0, max_ships := 6 }
      else
        { x := i % 4, y := i / 4, size := 2, owner := none, ships := 100,
          max_ships := 6 }),
    turn := 0,
    current_player := Side.ai,
    selected_planet := none,
    game_over := false,
    winner := none }

/-- Witness for C9: the single move generated on `bC9` for 'ai' satisfies
the attack preconditions. -/
theorem possible_moves_valid_witness :
    (planetAt bC9 (0 : ℕ)).owner = some Side.ai ∧
    (0 : ℕ) ≠ (1 : ℕ) ∧
    (1 : ℤ) ≤ 1 ∧
    (1 : ℤ) ≤ (planetAt bC9 0).ships - 1 ∧
    (Side.ai = bC9.current_player →
      (Board.attack bC9 0 1 1).1.isSome = true) := by
  have h := possible_moves_valid 0 bC9 Side.ai
    ((0, 1, 1, ⟨216, 320⟩) : FMove) (by decide)
  exact ⟨h.1, h.2.1, h.2.2.1, h.2.2.2.1, h.2.2.2.2⟩

theorem one_le_sqrtTwo : (1 : ℝ) ≤ Real.sqrt 2 := by
  have h := Real.sq_sqrt (show (0 : ℝ) ≤ 2 by norm_num)
  nlinarith [Real.sqrt_nonneg 2]

theorem sqrtTwo_lt_two : Real.sqrt 2 < 2 := by
  have h := Real.sq_sqrt (show (0 : ℝ) ≤ 2 by norm_num)
  nlinarith [Real.sqrt_nonneg 2]

theorem costVal_add (c d : Cost) :
    costVal (costAdd c d) = costVal c + costVal d := by
  simp only [costVal, costAdd]
  push_cast
  ring

theorem one_le_costVal_move_cost (p q : ℕ × ℕ) :
    1 ≤ costVal (move_cost p q) := by
  unfold move_cost
  split_ifs
  · simp [costVal]
  · simp only [costVal]
    push_cast
    nlinarith [one_le_sqrtTwo]

theorem cheb_triangle (a b c : ℕ × ℕ) : cheb a c ≤ cheb a b + cheb b c := by
  simp only [cheb]
  omega

theorem cheb_get_neighbors {p n : ℕ × ℕ} (h : n ∈ get_neighbors p) :
    cheb p n ≤ 1 := by
  unfold get_neighbors at h
  rw [List.mem_filterMap] at h
  obtain ⟨d, hd, hf⟩ := h
  fin_cases hd <;>
  · simp only at hf
    split at hf
    · next hb =>
      rw [Option.some_inj] at hf
      subst hf
      simp only [cheb]
      omega
    · exact absurd hf (by simp)

theorem popMin_mem : ∀ {l : List PQEntry} {e : PQEntry} {rest : List PQEntry},
    popMin l = some (e, rest) → e ∈ l ∧ ∀ x ∈ rest, x ∈ l := by
  intro l
  induction l with
  | nil => intro e rest h; simp [popMin] at h
  | cons a as ih =>
    intro e rest h
    simp only [popMin] at h
    cases hpm : popMin as with
    | none =>
      rw [hpm] at h
      rw [Option.some_inj, Prod.mk.injEq] at h
      obtain ⟨rfl, rfl⟩ := h
      exact ⟨List.mem_cons_self _ _, by simp⟩
    | some pr =>
      obtain ⟨m, rest2⟩ := pr
      rw [hpm] at h
      dsimp only at h
      obtain ⟨hm, hrest2⟩ := ih hpm
      by_cases hle : costLE a.f m.f
      · rw [if_pos hle, Option.some_inj, Prod.mk.injEq] at h
        obtain ⟨rfl, rfl⟩ := h
        exact ⟨List.mem_cons_self _ _, fun x hx => List.mem_cons_of_mem _ hx⟩
      · rw [if_neg hle, Option.some_inj, Prod.mk.injEq] at h
        obtain ⟨rfl, rfl⟩ := h
        refine ⟨List.mem_cons_of_mem _ hm, fun x hx => ?_⟩
        rcases List.mem_cons.mp hx with rfl | hx'
        · exact List.mem_cons_self _ _
        · exact List.mem_cons_of_mem _ (hrest2 x hx')

theorem foldl_push_inv (P : PQEntry → Prop) (mk : (ℕ × ℕ) → PQEntry)
    (closed2 : List (ℕ × ℕ)) :
    ∀ (ns : List (ℕ × ℕ)) (acc : List PQEntry),
      (∀ x ∈ acc, P x) → (∀ n ∈ ns, P (mk n)) →
      ∀ x ∈ ns.foldl
        (fun acc n => if n ∈ closed2 then acc else acc ++ [mk n]) acc, P x := by
  intro ns
  induction ns with
  | nil => intro acc ha _ x hx; exact ha x hx
  | cons n ns ih =>
    intro acc ha hn x hx
    simp only [List.foldl_cons] at hx
    refine ih _ ?_ (fun q hq => hn q (List.mem_cons_of_mem _ hq)) x hx
    intro y hy
    split at hy
    · exact ha y hy
    · rcases List.mem_append.mp hy with h' | h'
      · exact ha y h'
      · have : y = mk n := by simpa using h'
        exact this ▸ hn n (List.mem_cons_self _ _)

/-- Any open-set entry of the A* loop whose path starts at `s` keeps
Chebyshev-many cost below it; popping the goal therefore yields a cost at
least the Chebyshev distance from `s` to the goal. -/
theorem find_path_loop_cheb (s goal : ℕ × ℕ) :
    ∀ (fuel : ℕ) (open_set : List PQEntry) (closed_set : List (ℕ × ℕ)),
      (∀ e ∈ open_set, (cheb s e.pos : ℝ) ≤ costVal e.g) →
      ∀ (p : List (ℕ × ℕ)) (c : Cost),
        find_path_loop goal fuel open_set closed_set = some (p, some c) →
        (cheb s goal : ℝ) ≤ costVal c := by
  intro fuel
  induction fuel with
  | zero => intro o cl _ p c h; simp [find_path_loop] at h
  | succ fuel ih =>
    intro o cl hinv p c h
    rw [find_path_loop] at h
    cases hpm : popMin o with
    | none =>
      rw [hpm] at h
      simp at h
    | some pr =>
      obtain ⟨e, rest⟩ := pr
      rw [hpm] at h
      obtain ⟨hmem, hrest⟩ := popMin_mem hpm
      dsimp only at h
      by_cases hcl : e.pos ∈ cl
      · rw [if_pos hcl] at h
        exact ih rest cl (fun x hx => hinv x (hrest x hx)) p c h
      · rw [if_neg hcl] at h
        by_cases hgoal : e.pos = goal
        · rw [if_pos hgoal] at h
          rw [Option.some_inj, Prod.mk.injEq] at h
          obtain ⟨rfl, hc⟩ := h
          rw [Option.some_inj] at hc
          subst hc
          calc (cheb s goal : ℝ) = (cheb s e.pos : ℝ) := by rw [hgoal]
            _ ≤ costVal e.g := hinv e hmem
        · rw [if_neg hgoal] at h
          refine ih _ _ ?_ p c h
          refine foldl_push_inv _ _ _ _ _
            (fun y hy => hinv y (hrest y hy)) ?_
          intro n hn
          have h1 : cheb s n ≤ cheb s e.pos + cheb e.pos n :=
            cheb_triangle s e.pos n
          have h2 : cheb e.pos n ≤ 1 := cheb_get_neighbors hn
          have h3 := hinv e hmem
          have h4 := one_le_costVal_move_cost e.pos n
          show (cheb s n : ℝ) ≤ costVal (costAdd e.g (move_cost e.pos n))
          rw [costVal_add]
          have h1' : (cheb s n : ℝ) ≤ (cheb s e.pos : ℝ) + (cheb e.pos n : ℝ) := by
            exact_mod_cast h1
          have h2' : (cheb e.pos n : ℝ) ≤ 1 := by exact_mod_cast h2
          linarith

/-- C4 (amended): for every pair of coordinates, whenever `find_path`
returns a path with a (finite) cost, that cost is at least the Chebyshev
distance between the endpoints (each step moves one cell and costs at
least 1).  The Manhattan heuristic of the source is not such a lower
bound: it can exceed the returned cost, i.e. it is not admissible for the
Euclidean edge weights (see the counterexample). -/
theorem find_path_cost_ge_cheb (start_pos end_pos : ℕ × ℕ)
    (p : List (ℕ × ℕ)) (c : Cost)
    (h : find_path start_pos end_pos = some (p, some c)) :
    (cheb start_pos end_pos : ℝ) ≤ costVal c := by
  unfold find_path at h
  split at h
  · next heq =>
    rw [Option.some_inj, Prod.mk.injEq] at h
    obtain ⟨-, hc⟩ := h
    rw [Option.some_inj] at hc
    subst hc
    subst heq
    simp [cheb, costVal]
  · next hne =>
    refine find_path_loop_cheb start_pos end_pos 1000 _ [] ?_ p c h
    intro e he
    rw [List.mem_singleton] at he
    subst he
    simp [cheb, costVal]

/-- Witness for C4 (amended) at the concrete pair `(0,0) → (1,1)`:
`find_path` returns the single diagonal step of cost `sqrt 2`, and the
Chebyshev distance 1 is below it. -/
theorem find_path_cost_ge_cheb_witness :
    (cheb (0, 0) (1, 1) : ℝ) ≤ costVal (0, 1) :=
  find_path_cost_ge_cheb (0, 0) (1, 1) [(0, 0), (1, 1)] (0, 1) (by decide)

/-- C4 counterexample: from `(0,0)` to `(1,1)` the A* search returns the
diagonal path of cost `sqrt 2 < 2`, while the Manhattan distance between
the two cells is 2 — the Manhattan heuristic exceeds the returned path
cost, so it is not admissible for the Euclidean edge weights. -/
theorem manhattan_heuristic_not_admissible :
    find_path (0, 0) (1, 1) = some ([(0, 0), (1, 1)], some (0, 1)) ∧
    heuristic (0, 0) (1, 1) = 2 ∧
    ¬ ((heuristic (0, 0) (1, 1) : ℝ) ≤ costVal (0, 1)) := by
  refine ⟨by decide, by decide, ?_⟩
  have h2 : (heuristic (0, 0) (1, 1) : ℝ) = 2 := by norm_num [heuristic]
  have hv : costVal (0, 1) = Real.sqrt 2 := by simp [costVal]
  rw [h2, hv]
  exact not_le.mpr sqrtTwo_lt_two
